import Mathlib

/-!
Verification of the synchronization core of the archive_reader application.

The development shallowly embeds the reconciliation core of the code base:

* the local relational store (`models.py`): the four tables MailingList,
  Thread, Sender, Email together with the orm-style `get_or_create`
  primitive (get the first row matching the unique key, otherwise insert a
  fresh row built from the supplied defaults; an existing row is never
  modified);
* the remote fetch helper `fetch_urls` (`hyperkitty.py`): a concurrent
  batch GET modelled as a deterministic left-to-right gather over an
  abstract network `net : String → Option (Response α)` (`none` models an
  `httpx.ConnectError`), followed by the status-code partition loop, where
  a non-200 response with no logger supplied evaluates `logger(resp)` on
  `None` and hence raises `TypeError`;
* the managers (`core.py`): `ThreadsManager.threads`, `update_threads`
  (`_fetch_threads`), `emails`, `update_emails`, and
  `ListManager.subscribe_lists`.  The parsed remote pages are passed as
  inputs, exactly the values the network layer would deliver.

Python exceptions are embedded as the `Except PyError` monad; database
mutation as explicit state passing on `DB`.  The concurrent Sender-creation
race of `EmailManager.create` is modelled separately as a two-task
interleaved transition system whose atomic steps are the individual store
operations (the suspension points of the async code).
-/

/-- JSON record for a sender as it appears inside an email body. -/
structure SenderJson where
  address : String
  mailman_id : String
  emails : String
  deriving DecidableEq, Repr

/-- JSON record for one email body, the fields used by the Email model. -/
structure EmailJson where
  url : String
  mailinglist : String
  message_id : String
  message_id_hash : String
  thread : String
  sender_name : String
  sender : SenderJson
  subject : String
  date : String
  parent : Option String
  content : String
  deriving DecidableEq, Repr

/-- JSON record for one thread, as listed in a threads page. -/
structure ThreadJson where
  url : String
  mailinglist : String
  thread_id : String
  subject : String
  date_active : String
  starting_email : String
  emails : String
  votes_total : Int
  replies_count : Int
  next_thread : Option String
  prev_thread : Option String
  deriving DecidableEq, Repr

/-- JSON record for one mailing list, as listed in a lists page. -/
structure MLJson where
  url : String
  name : String
  display_name : String
  description : String
  subjectPrefix : String
  archive_policy : String
  created_at : String
  threads : String
  emails : String
  deriving DecidableEq, Repr

/-- A persisted Sender row (`sender` table). -/
structure SenderRow where
  id : Nat
  address : String
  mailman_id : String
  emails : String
  deriving DecidableEq, Repr

/-- A persisted Email row (`email` table); `sender` is the foreign key id. -/
structure EmailRow where
  id : Nat
  url : String
  mailinglist : String
  message_id : String
  message_id_hash : String
  thread : String
  sender_name : String
  sender : Nat
  subject : String
  date : String
  parent : Option String
  content : String
  deriving DecidableEq, Repr

/-- A persisted Thread row (`thread` table). -/
structure ThreadRow where
  id : Nat
  url : String
  mailinglist : String
  thread_id : String
  subject : String
  date_active : String
  starting_email : String
  emails : String
  votes_total : Int
  replies_count : Int
  next_thread : Option String
  prev_thread : Option String
  deriving DecidableEq, Repr

/-- A persisted MailingList row (`mailinglist` table). -/
structure MLRow where
  id : Nat
  url : String
  name : String
  display_name : String
  description : String
  subjectPrefix : String
  archive_policy : String
  created_at : String
  threads : String
  emails : String
  deriving DecidableEq, Repr

/-- The local sqlite store: the four tables plus their autoincrement ids. -/
structure DB where
  mailinglists : List MLRow
  threads : List ThreadRow
  senders : List SenderRow
  emails : List EmailRow
  nextMlId : Nat
  nextThreadId : Nat
  nextSenderId : Nat
  nextEmailId : Nat
  deriving DecidableEq, Repr

/-- The empty store, as created by `initialize_database`. -/
def DB.empty : DB :=
  { mailinglists := [], threads := [], senders := [], emails := []
    nextMlId := 1, nextThreadId := 1, nextSenderId := 1, nextEmailId := 1 }

/-- Build a Thread row from the defaults dict, assigning the next id. -/
def mkThreadRow (id : Nat) (j : ThreadJson) : ThreadRow :=
  { id := id, url := j.url, mailinglist := j.mailinglist
    thread_id := j.thread_id, subject := j.subject
    date_active := j.date_active, starting_email := j.starting_email
    emails := j.emails, votes_total := j.votes_total
    replies_count := j.replies_count, next_thread := j.next_thread
    prev_thread := j.prev_thread }

/-- Build a MailingList row from the defaults dict. -/
def mkMLRow (id : Nat) (j : MLJson) : MLRow :=
  { id := id, url := j.url, name := j.name, display_name := j.display_name
    description := j.description, subjectPrefix := j.subjectPrefix
    archive_policy := j.archive_policy, created_at := j.created_at
    threads := j.threads, emails := j.emails }

/-- Build a Sender row from the sender dict. -/
def mkSenderRow (id : Nat) (s : SenderJson) : SenderRow :=
  { id := id, address := s.address, mailman_id := s.mailman_id
    emails := s.emails }

/-- Build an Email row from the body dict once its sender is resolved. -/
def mkEmailRow (id : Nat) (j : EmailJson) (senderId : Nat) : EmailRow :=
  { id := id, url := j.url, mailinglist := j.mailinglist
    message_id := j.message_id, message_id_hash := j.message_id_hash
    thread := j.thread, sender_name := j.sender_name, sender := senderId
    subject := j.subject, date := j.date, parent := j.parent
    content := j.content }

/-- `Thread.objects.get_or_create(thread_id=tid, defaults=j)`: return the
existing row keyed by `thread_id`, otherwise insert a fresh row built from
the defaults.  The existing-row branch leaves the row untouched. -/
def Thread_get_or_create (db : DB) (tid : String) (j : ThreadJson) :
    (ThreadRow × Bool) × DB :=
  match db.threads.find? (fun r => r.thread_id == tid) with
  | some r => ((r, false), db)
  | none =>
    let row := mkThreadRow db.nextThreadId j
    ((row, true),
     { db with threads := db.threads ++ [row]
               nextThreadId := db.nextThreadId + 1 })

/-- `MailingList.objects.get_or_create(url=u, defaults=j)`. -/
def MailingList_get_or_create (db : DB) (u : String) (j : MLJson) :
    (MLRow × Bool) × DB :=
  match db.mailinglists.find? (fun r => r.url == u) with
  | some r => ((r, false), db)
  | none =>
    let row := mkMLRow db.nextMlId j
    ((row, true),
     { db with mailinglists := db.mailinglists ++ [row]
               nextMlId := db.nextMlId + 1 })

/-- `ThreadsManager._fetch_threads` (the body of `update_threads`): the
remote page's `results` list is reconciled record by record through a
plain `get_or_create` keyed on `thread_id`; the touched rows are returned
in page order. -/
def update_threads : List ThreadJson → DB → List ThreadRow × DB
  | [], db => ([], db)
  | t :: rest, db =>
    let r := Thread_get_or_create db t.thread_id t
    let tail := update_threads rest r.2
    (r.1.1 :: tail.1, tail.2)

/-- `ListManager.subscribe_lists`: get-or-create per record keyed on the
record's url, returning the persisted objects in input order. -/
def subscribe_lists : List MLJson → DB → List MLRow × DB
  | [], db => ([], db)
  | m :: rest, db =>
    let r := MailingList_get_or_create db m.url m
    let tail := subscribe_lists rest r.2
    (r.1.1 :: tail.1, tail.2)

/-- `ThreadsManager.threads`: `Thread.objects.filter(mailinglist=self.ml.url)`.
A pure read of the store; the definition takes no network argument. -/
def threads (db : DB) (ml : MLRow) : List ThreadRow :=
  db.threads.filter (fun t => t.mailinglist == ml.url)

/-- `ThreadsManager.emails` via `EmailManager.filter(thread=thread.url)`.
A pure read of the store; the definition takes no network argument. -/
def emails (db : DB) (thread : ThreadRow) : List EmailRow :=
  db.emails.filter (fun e => e.thread == thread.url)

/-- An HTTP response as seen by `fetch_urls`: the status code together with
the parsed JSON body that `resp.json()` would return. -/
structure Response (α : Type) where
  status_code : Nat
  body : α
  deriving DecidableEq, Repr

/-- The Python exceptions the embedded code can raise. -/
inductive PyError where
  /-- `httpx.ConnectError` for the named URL. -/
  | connectError : String → PyError
  /-- `TypeError`, raised when the code calls or iterates `None`. -/
  | typeError : PyError
  /-- `RemoteURLFetchException(url)` from `core.py`. -/
  | remoteURLFetch : String → PyError
  /-- `IndexError` from `replies[0]` on an empty list. -/
  | indexError : PyError
  deriving DecidableEq, Repr

/-- The `asyncio.gather` of one `client.get` per URL inside `fetch_urls`:
a connection-level failure (`net u = none`) propagates out of the gather,
otherwise the responses are collected in dispatch (input) order. -/
def gatherGets {α : Type} (net : String → Option (Response α)) :
    List String → Except PyError (List (Response α))
  | [] => .ok []
  | u :: us =>
    match net u with
    | none => .error (.connectError u)
    | some r =>
      match gatherGets net us with
      | .error e => .error e
      | .ok rs => .ok (r :: rs)

/-- The partition loop of `fetch_urls`: a 200 response contributes its body
to `success`, any other response is appended to `failed` — after the code
evaluates `logger(resp)`, which raises `TypeError` when no logger was
supplied (`logger=None` is the default and the call is unguarded). -/
def partitionResponses {α : Type} (logger : Bool) :
    List (Response α) → Except PyError (List α × List (Response α))
  | [] => .ok ([], [])
  | r :: rs =>
    if r.status_code == 200 then
      match partitionResponses logger rs with
      | .error e => .error e
      | .ok p => .ok (r.body :: p.1, p.2)
    else
      if logger then
        match partitionResponses logger rs with
        | .error e => .error e
        | .ok p => .ok (p.1, r :: p.2)
      else .error .typeError

/-- `fetch_urls(urls, logger)` from `hyperkitty.py`: gather all GETs, then
partition by status code.  `logger : Bool` records whether a logger was
passed (`True` for `fetch_urls([thread.emails], log)`, `False` for the
default-argument call `fetch_urls(new_urls)`). -/
def fetch_urls {α : Type} (net : String → Option (Response α))
    (urls : List String) (logger : Bool) :
    Except PyError (List α × List (Response α)) :=
  match gatherGets net urls with
  | .error e => .error e
  | .ok rs => partitionResponses logger rs

/-- A parsed JSON body in the `update_emails` flow: either an emails-page
object carrying a `results` list, or a single email body. -/
inductive Body where
  | page : List EmailJson → Body
  | email : EmailJson → Body
  deriving DecidableEq, Repr

/-- `.get('results')` on a parsed body: `some` for a page, `none` (the
Python `None`) otherwise. -/
def Body.results : Body → Option (List EmailJson)
  | .page rs => some rs
  | .email _ => none

/-- The urls of the Emails already stored for the thread at `turl`:
`set(email.url for email in self.email_mgr.filter(thread=thread.url))`. -/
def existing_email_urls (db : DB) (turl : String) : List String :=
  (db.emails.filter (fun e => e.thread == turl)).map (fun e => e.url)

/-- `new_urls`: the listed urls that are not equal to any stored Email.url
for this thread (core.py lines 53-57). -/
def new_urls_of (db : DB) (turl : String) (reply_urls : List String) :
    List String :=
  reply_urls.filter (fun u => !(existing_email_urls db turl).contains u)

/-- `Sender.objects.get_or_create(mailman_id=..., defaults=sender)` in the
sequential (single-task) execution, where the uniqueness race cannot occur
and the `IntegrityError` branch is dead. -/
def Sender_get_or_create (db : DB) (s : SenderJson) : SenderRow × DB :=
  match db.senders.find? (fun r => r.mailman_id == s.mailman_id) with
  | some r => (r, db)
  | none =>
    let row := mkSenderRow db.nextSenderId s
    (row,
     { db with senders := db.senders ++ [row]
               nextSenderId := db.nextSenderId + 1 })

/-- `EmailManager.create(json_data)` in the sequential execution: resolve
or create the sender, then `Email.objects.get_or_create` keyed on
`message_id_hash` with the sender reference patched into the defaults. -/
def EmailManager_create (db : DB) (j : EmailJson) : (EmailRow × Bool) × DB :=
  let sres := Sender_get_or_create db j.sender
  let db1 := sres.2
  match db1.emails.find? (fun r => r.message_id_hash == j.message_id_hash) with
  | some r => ((r, false), db1)
  | none =>
    let row := mkEmailRow db1.nextEmailId j sres.1.id
    ((row, true),
     { db1 with emails := db1.emails ++ [row]
                nextEmailId := db1.nextEmailId + 1 })

/-- The `asyncio.gather` of the `email_mgr.create(reply)` tasks, run in
dispatch order.  A body that is not a single email object makes the Python
attribute accesses fail on `None`. -/
def createAll : DB → List Body → Except PyError (List (EmailRow × Bool) × DB)
  | db, [] => .ok ([], db)
  | db, b :: rest =>
    match b with
    | .page _ => .error .typeError
    | .email j =>
      let r := EmailManager_create db j
      match createAll r.2 rest with
      | .error e => .error e
      | .ok p => .ok (r.1 :: p.1, p.2)

/-- `ThreadsManager.update_emails(thread)` (core.py lines 44-67).  Only the
initial `fetch_urls([thread.emails], log)` is guarded by
`except httpx.ConnectError`, which re-raises `RemoteURLFetchException`
naming `thread.emails`; the body-batch `fetch_urls(new_urls)` is outside
the `try` and is called without a logger. -/
def update_emails (net : String → Option (Response Body)) (db : DB)
    (thread : ThreadRow) : Except PyError (List EmailRow × DB) :=
  match fetch_urls net [thread.emails] true with
  | .error (.connectError _) => .error (.remoteURLFetch thread.emails)
  | .error e => .error e
  | .ok (replies, _) =>
    match replies with
    | [] => .error .indexError
    | page0 :: _ =>
      match page0.results with
      | none => .error .typeError
      | some results =>
        let reply_urls := results.map (fun e => e.url)
        let new_urls := new_urls_of db thread.url reply_urls
        if new_urls.isEmpty then .ok ([], db)
        else
          match fetch_urls net new_urls false with
          | .error e => .error e
          | .ok (replies2, _) =>
            match createAll db replies2 with
            | .error e => .error e
            | .ok p => .ok (p.1.map (fun r => r.1), p.2)

/-- `Sender.objects.get(mailman_id=mid)` / the existence check the sqlite
unique index performs on insert. -/
def findSender (db : DB) (mid : String) : Option SenderRow :=
  db.senders.find? (fun r => r.mailman_id == mid)

/-- `Email.objects.get(message_id_hash=h)` (first matching row). -/
def findEmail (db : DB) (h : String) : Option EmailRow :=
  db.emails.find? (fun r => r.message_id_hash == h)

/-- Insert a sender row, bumping the autoincrement id. -/
def insertSender (db : DB) (row : SenderRow) : DB :=
  { db with senders := db.senders ++ [row]
            nextSenderId := db.nextSenderId + 1 }

/-- Insert an email row, bumping the autoincrement id. -/
def insertEmail (db : DB) (row : EmailRow) : DB :=
  { db with emails := db.emails ++ [row]
            nextEmailId := db.nextEmailId + 1 }

/-- Program counter of one `EmailManager.create(json_data)` task, split at
its await points (each store operation is one atomic step). -/
inductive TaskPC where
  /-- before `Sender.objects.get_or_create` runs its internal get. -/
  | start : TaskPC
  /-- the internal get returned; `found` is its result. -/
  | gotSender : Option SenderRow → TaskPC
  /-- the internal create hit the unique index on `mailman_id`: the
  `IntegrityError` was raised and caught by `EmailManager.create`. -/
  | integrityFailed : TaskPC
  /-- the sender reference is resolved to a persisted row. -/
  | resolved : SenderRow → TaskPC
  /-- `Email.objects.get_or_create` ran its internal get. -/
  | emailGot : SenderRow → Option EmailRow → TaskPC
  /-- the task returned `(email, created)` with sender resolved to `s`. -/
  | finished : SenderRow → EmailRow → TaskPC
  /-- an uncaught exception escaped the task. -/
  | errored : TaskPC
  deriving DecidableEq, Repr

/-- One atomic step of an `EmailManager.create(j)` task against the shared
store.  The `gotSender none` step is the racy insert: if another task has
meanwhile created the row, the unique index fires (`IntegrityError`,
caught), and the recovery step re-fetches the winner's row. -/
def taskStep (j : EmailJson) (db : DB) (pc : TaskPC) : DB × TaskPC :=
  match pc with
  | .start => (db, .gotSender (findSender db j.sender.mailman_id))
  | .gotSender (some r) => (db, .resolved r)
  | .gotSender none =>
    match findSender db j.sender.mailman_id with
    | some _ => (db, .integrityFailed)
    | none =>
      let row := mkSenderRow db.nextSenderId j.sender
      (insertSender db row, .resolved row)
  | .integrityFailed =>
    match findSender db j.sender.mailman_id with
    | some r => (db, .resolved r)
    | none => (db, .errored)
  | .resolved s => (db, .emailGot s (findEmail db j.message_id_hash))
  | .emailGot s (some e) => (db, .finished s e)
  | .emailGot s none =>
    let row := mkEmailRow db.nextEmailId j s.id
    (insertEmail db row, .finished s row)
  | .finished s e => (db, .finished s e)
  | .errored => (db, .errored)

/-- Joint state of two concurrent `EmailManager.create` tasks sharing the
store. -/
structure RaceState where
  db : DB
  pcA : TaskPC
  pcB : TaskPC
  deriving DecidableEq, Repr

/-- Scheduler step: `true` runs task A (input `j1`), `false` task B. -/
def raceStep (j1 j2 : EmailJson) (st : RaceState) (c : Bool) : RaceState :=
  if c then
    let r := taskStep j1 st.db st.pcA
    { st with db := r.1, pcA := r.2 }
  else
    let r := taskStep j2 st.db st.pcB
    { st with db := r.1, pcB := r.2 }

/-- Run the two tasks under an arbitrary interleaving schedule. -/
def raceRun (j1 j2 : EmailJson) (st : RaceState) : List Bool → RaceState
  | [] => st
  | c :: cs => raceRun j1 j2 (raceStep j1 j2 st c) cs

/-- How far along its five await points a task has progressed. -/
def pcDepth : TaskPC → Nat
  | .start => 0
  | .gotSender _ => 1
  | .integrityFailed => 2
  | .resolved _ => 3
  | .emailGot _ _ => 4
  | .finished _ _ => 5
  | .errored => 5

/-- Does `net u` deliver a 200 response whose body is a single email? -/
def isEmailOk : Option (Response Body) → Bool
  | some r =>
    r.status_code == 200 &&
      (match r.body with
       | .email _ => true
       | .page _ => false)
  | none => false

/-! Concrete sample data used by the closed evaluation theorems and the
witnesses. -/

/-- A sample sender record. -/
def senderJsonA : SenderJson :=
  { address := "ann at example.com", mailman_id := "SND1"
    emails := "https://x/api/senders/SND1/emails/" }

/-- A sample email body for url `.../e/1/`. -/
def emailJson1 : EmailJson :=
  { url := "https://x/api/e/1/", mailinglist := "https://x/api/lists/L/"
    message_id := "m1", message_id_hash := "H1"
    thread := "https://x/api/t/1/", sender_name := "Ann"
    sender := senderJsonA, subject := "hello", date := "2023-01-01"
    parent := none, content := "first body" }

/-- A sample email body for url `.../e/2/`. -/
def emailJson2 : EmailJson :=
  { url := "https://x/api/e/2/", mailinglist := "https://x/api/lists/L/"
    message_id := "m2", message_id_hash := "H2"
    thread := "https://x/api/t/1/", sender_name := "Ann"
    sender := senderJsonA, subject := "re: hello", date := "2023-01-02"
    parent := some "https://x/api/e/1/", content := "second body" }

/-- The stored Email row for `emailJson1` (sender id 1, row id 1). -/
def emailRow1 : EmailRow := mkEmailRow 1 emailJson1 1

/-- A sample stored Thread row whose emails collection lists the two
bodies above. -/
def threadRowW : ThreadRow :=
  { id := 1, url := "https://x/api/t/1/"
    mailinglist := "https://x/api/lists/L/", thread_id := "T1"
    subject := "hello", date_active := "2023-01-02"
    starting_email := "https://x/api/e/1/"
    emails := "https://x/api/t/1/emails/", votes_total := 0
    replies_count := 1, next_thread := none, prev_thread := none }

/-- A store that already holds `emailRow1` for the thread. -/
def dbW : DB :=
  { mailinglists := [], threads := [threadRowW]
    senders := [mkSenderRow 1 senderJsonA], emails := [emailRow1]
    nextMlId := 1, nextThreadId := 2, nextSenderId := 2, nextEmailId := 2 }

/-- A network where the collection page lists both emails and each body
url answers 200; used by the `update_emails` witness. -/
def netW : String → Option (Response Body) := fun u =>
  if u = "https://x/api/t/1/emails/" then
    some { status_code := 200, body := Body.page [emailJson1, emailJson2] }
  else if u = "https://x/api/e/1/" then
    some { status_code := 200, body := Body.email emailJson1 }
  else if u = "https://x/api/e/2/" then
    some { status_code := 200, body := Body.email emailJson2 }
  else none

/-- Like `netW` but the body fetch for the new email is refused at the
connection level. -/
def netW2 : String → Option (Response Body) := fun u =>
  if u = "https://x/api/t/1/emails/" then
    some { status_code := 200, body := Body.page [emailJson1, emailJson2] }
  else none

/-- Three-URL network for the batch-partition scenario: the middle URL
answers 404, the others 200. -/
def netC3 : String → Option (Response String) := fun u =>
  if u = "https://x/api/e/1/" then some { status_code := 200, body := "b1" }
  else if u = "https://x/api/e/2/" then
    some { status_code := 404, body := "not found" }
  else if u = "https://x/api/e/3/" then
    some { status_code := 200, body := "b3" }
  else none

/-- The three URLs of the batch scenario. -/
def urlsC3 : List String :=
  ["https://x/api/e/1/", "https://x/api/e/2/", "https://x/api/e/3/"]

/-- A stored Thread row with reply count 3, before a re-sync. -/
def threadRowT1 : ThreadRow :=
  { id := 1, url := "https://x/api/t/1/"
    mailinglist := "https://x/api/lists/L/", thread_id := "T1"
    subject := "hello", date_active := "2023-01-02"
    starting_email := "https://x/api/e/1/"
    emails := "https://x/api/t/1/emails/", votes_total := 0
    replies_count := 3, next_thread := none, prev_thread := none }

/-- The remote record for the same `thread_id` reporting reply count 7. -/
def threadJsonT1b : ThreadJson :=
  { url := "https://x/api/t/1/", mailinglist := "https://x/api/lists/L/"
    thread_id := "T1", subject := "hello", date_active := "2023-01-05"
    starting_email := "https://x/api/e/1/"
    emails := "https://x/api/t/1/emails/", votes_total := 2
    replies_count := 7, next_thread := none, prev_thread := none }

/-- A store holding only `threadRowT1`. -/
def dbT : DB :=
  { mailinglists := [], threads := [threadRowT1], senders := [], emails := []
    nextMlId := 1, nextThreadId := 2, nextSenderId := 1, nextEmailId := 1 }

/-- A sample mailing-list record. -/
def mlJsonA : MLJson :=
  { url := "https://x/api/lists/L/", name := "l at x", display_name := "L"
    description := "list L", subjectPrefix := "L "
    archive_policy := "public", created_at := "2022-01-01"
    threads := "https://x/api/lists/L/threads/"
    emails := "https://x/api/lists/L/emails/" }

/-- Three-URL network for the order-preservation scenario. -/
def netC9 : String → Option (Response String) := fun u =>
  if u = "https://y/api/e/1/" then some { status_code := 200, body := "a" }
  else if u = "https://y/api/e/2/" then
    some { status_code := 404, body := "x" }
  else if u = "https://y/api/e/3/" then
    some { status_code := 200, body := "c" }
  else none

/-- Per-task sender invariant of the race: what a task's progress implies
about its sender resolution relative to the shared store. -/
def senderOk (db : DB) (mid : String) : TaskPC → Prop
  | .start => True
  | .gotSender none => True
  | .gotSender (some r) => r ∈ db.senders ∧ r.mailman_id = mid
  | .integrityFailed => ∃ r ∈ db.senders, r.mailman_id = mid
  | .resolved s => s ∈ db.senders ∧ s.mailman_id = mid
  | .emailGot s _ => s ∈ db.senders ∧ s.mailman_id = mid
  | .finished s _ => s ∈ db.senders ∧ s.mailman_id = mid
  | .errored => False

/-- Per-task email invariant of the race: before the task's own email
insert, no row with its `message_id_hash` exists; afterwards its returned
row is stored and references its resolved sender. -/
def emailOk (db : DB) (h : String) : TaskPC → Prop
  | .start => ∀ e ∈ db.emails, e.message_id_hash ≠ h
  | .gotSender _ => ∀ e ∈ db.emails, e.message_id_hash ≠ h
  | .integrityFailed => ∀ e ∈ db.emails, e.message_id_hash ≠ h
  | .resolved _ => ∀ e ∈ db.emails, e.message_id_hash ≠ h
  | .emailGot _ found =>
      found = none ∧ ∀ e ∈ db.emails, e.message_id_hash ≠ h
  | .finished s e => e ∈ db.emails ∧ e.sender = s.id
  | .errored => True

/-- Joint invariant of the two-task race for sender key `mid` and the two
tasks' email hashes `h1`, `h2`: at most one stored sender row carries
`mid`, and both tasks' per-task invariants hold. -/
def RaceInv (mid h1 h2 : String) (st : RaceState) : Prop :=
  st.db.senders.countP (fun r => r.mailman_id == mid) ≤ 1 ∧
  senderOk st.db mid st.pcA ∧ senderOk st.db mid st.pcB ∧
  emailOk st.db h1 st.pcA ∧ emailOk st.db h2 st.pcB

/-- The alternating ten-step schedule used by the race witness. -/
def csW : List Bool :=
  [true, false, true, false, true, false, true, false, true, false]

/-! Theorems. -/

/-- Claim C2, evaluated on the code: a Thread row stored with
`replies_count = 3` that is re-synced while the remote record (same
`thread_id`) reports `replies_count = 7` keeps the stale value 3 — the
plain `get_or_create` of `_fetch_threads` returns the existing row without
writing any field, so the claimed update to 7 does not happen. -/
theorem update_threads_keeps_stale_replies_count :
    threadRowT1.replies_count = 3 ∧ threadJsonT1b.replies_count = 7 ∧
    threadJsonT1b.thread_id = threadRowT1.thread_id ∧
    (update_threads [threadJsonT1b] dbT).2.threads = [threadRowT1] := by
  decide

/-- Claim C7: `update_threads` leaves every pre-existing Thread row in the
store untouched — the stored list is only ever extended, and every
appended row carries a `thread_id` different from every pre-existing
row's. -/
theorem update_threads_frame (page : List ThreadJson) (db : DB) :
    ∃ added, (update_threads page db).2.threads = db.threads ++ added ∧
      ∀ r ∈ added, ∀ r0 ∈ db.threads, r.thread_id ≠ r0.thread_id := by
  induction page generalizing db with
  | nil => exact ⟨[], by simp [update_threads], by simp⟩
  | cons t rest ih =>
    cases hfind : db.threads.find? (fun r => r.thread_id == t.thread_id) with
    | some r =>
      have hstep : (update_threads (t :: rest) db).2
          = (update_threads rest db).2 := by
        simp [update_threads, Thread_get_or_create, hfind]
      rw [hstep]
      exact ih db
    | none =>
      have hstep : (update_threads (t :: rest) db).2
          = (update_threads rest
              { db with
                  threads := db.threads ++ [mkThreadRow db.nextThreadId t]
                  nextThreadId := db.nextThreadId + 1 }).2 := by
        simp [update_threads, Thread_get_or_create, hfind]
      rw [hstep]
      obtain ⟨added, ha, hb⟩ := ih
        { db with
            threads := db.threads ++ [mkThreadRow db.nextThreadId t]
            nextThreadId := db.nextThreadId + 1 }
      refine ⟨mkThreadRow db.nextThreadId t :: added, ?_, ?_⟩
      · rw [ha]; simp
      · intro r hr r0 hr0
        rcases List.mem_cons.mp hr with h | h
        · subst h
          have hne := List.find?_eq_none.mp hfind r0 hr0
          intro hEq
          apply hne
          have : r0.thread_id = t.thread_id := by
            simpa [mkThreadRow] using hEq.symm
          simp [this]
        · exact hb r h r0 (by simp [hr0])

/-- Claim C8: with no synced thread for the list and no synced email for
the thread, `threads()` and `emails()` both return the empty list; both
are pure reads of the store (their definitions take no network
argument). -/
theorem threads_emails_empty_state (db : DB) (ml : MLRow) (thread : ThreadRow)
    (h1 : ∀ t ∈ db.threads, t.mailinglist ≠ ml.url)
    (h2 : ∀ e ∈ db.emails, e.thread ≠ thread.url) :
    threads db ml = [] ∧ emails db thread = [] := by
  refine ⟨List.filter_eq_nil_iff.mpr ?_, List.filter_eq_nil_iff.mpr ?_⟩
  · intro t ht; simpa using h1 t ht
  · intro e he; simpa using h2 e he

/-- Witness for C8 on the empty store. -/
theorem threads_emails_empty_state_witness :
    threads DB.empty (mkMLRow 1 mlJsonA) = [] ∧
    emails DB.empty threadRowW = [] :=
  threads_emails_empty_state DB.empty (mkMLRow 1 mlJsonA) threadRowW
    (by simp [DB.empty]) (by simp [DB.empty])

/-- The row returned by `MailingList_get_or_create` for a record carries
that record's url (found rows match the key, created rows copy it). -/
lemma MailingList_get_or_create_url (db : DB) (m : MLJson) :
    ((MailingList_get_or_create db m.url m).1.1).url = m.url := by
  unfold MailingList_get_or_create
  cases hfind : db.mailinglists.find? (fun r => r.url == m.url) with
  | some r =>
    have := List.find?_some hfind
    simpa using this
  | none => rfl

/-- Claim C5: `subscribe_lists` get-or-creates per record keyed by the
record's url and returns the persisted rows in input order (the returned
urls are exactly the input urls); re-subscribing a record that was just
subscribed returns the very same row and store (a no-op), and exactly one
row with that url is stored. -/
theorem subscribe_lists_spec (lists : List MLJson) (db : DB) (m : MLJson)
    (hfresh : db.mailinglists.find? (fun r => r.url == m.url) = none) :
    ((subscribe_lists lists db).1.map (fun r => r.url)
        = lists.map (fun j => j.url)) ∧
    subscribe_lists [m] (subscribe_lists [m] db).2 = subscribe_lists [m] db ∧
    (subscribe_lists [m] db).2.mailinglists.countP (fun r => r.url == m.url)
        = 1 := by
  refine ⟨?_, ?_, ?_⟩
  · clear hfresh
    induction lists generalizing db with
    | nil => simp [subscribe_lists]
    | cons j rest ih =>
      simp only [subscribe_lists, List.map]
      rw [MailingList_get_or_create_url]
      rw [ih]
  · have h1 : subscribe_lists [m] db
        = ([mkMLRow db.nextMlId m],
           { db with mailinglists := db.mailinglists ++ [mkMLRow db.nextMlId m]
                     nextMlId := db.nextMlId + 1 }) := by
      simp [subscribe_lists, MailingList_get_or_create, hfresh]
    rw [h1]
    have h2 : (db.mailinglists ++ [mkMLRow db.nextMlId m]).find?
        (fun r => r.url == m.url) = some (mkMLRow db.nextMlId m) := by
      rw [List.find?_append, hfresh]
      simp [mkMLRow]
    simp [subscribe_lists, MailingList_get_or_create, h2]
  · have h1 : subscribe_lists [m] db
        = ([mkMLRow db.nextMlId m],
           { db with mailinglists := db.mailinglists ++ [mkMLRow db.nextMlId m]
                     nextMlId := db.nextMlId + 1 }) := by
      simp [subscribe_lists, MailingList_get_or_create, hfresh]
    rw [h1]
    have h0 : db.mailinglists.countP (fun r => r.url == m.url) = 0 := by
      rw [List.countP_eq_zero]
      intro r hr
      exact List.find?_eq_none.mp hfresh r hr
    simp [List.countP_append, h0, mkMLRow, List.countP_cons]

/-- Witness for C5: subscribing the sample list twice on the empty store
is a no-op the second time. -/
theorem subscribe_lists_spec_witness :
    subscribe_lists [mlJsonA] (subscribe_lists [mlJsonA] DB.empty).2
      = subscribe_lists [mlJsonA] DB.empty :=
  (subscribe_lists_spec [mlJsonA] DB.empty mlJsonA rfl).2.1

/-- Claim C3, evaluated on the code: for three URLs of which the middle
one answers 404, the batch call without a logger (the default, and how
core.py line 62 calls it) raises `TypeError` because the partition loop
evaluates `logger(resp)` on `None`; with a logger supplied it returns the
two parsed 200 bodies and the single failed response, as the spec
demands. -/
theorem fetch_urls_batch_404 :
    fetch_urls netC3 urlsC3 false = .error .typeError ∧
    fetch_urls netC3 urlsC3 true =
      .ok (["b1", "b3"],
           [{ status_code := 404, body := "not found" }]) :=
  ⟨rfl, rfl⟩

/-- A successful gather returns one response per input URL, in input
order: the i-th response is what the network delivered for the i-th
URL. -/
lemma gatherGets_ok_spec {α : Type} (net : String → Option (Response α)) :
    ∀ urls rs, gatherGets net urls = .ok rs →
      rs.length = urls.length ∧
      ∀ i (h1 : i < urls.length) (h2 : i < rs.length),
        net (urls.get ⟨i, h1⟩) = some (rs.get ⟨i, h2⟩) := by
  intro urls
  induction urls with
  | nil =>
    intro rs h
    simp only [gatherGets] at h
    cases h
    refine ⟨rfl, ?_⟩
    intro i h1 h2
    exact absurd h1 (by simp)
  | cons v us ih =>
    intro rs h
    cases hnv : net v with
    | none => simp [gatherGets, hnv] at h
    | some r =>
      cases hrec : gatherGets net us with
      | error e => simp [gatherGets, hnv, hrec] at h
      | ok rs2 =>
        simp only [gatherGets, hnv, hrec] at h
        cases h
        obtain ⟨hlen, hpt⟩ := ih rs2 hrec
        refine ⟨by simp [hlen], ?_⟩
        intro i h1 h2
        cases i with
        | zero => simpa using hnv
        | succ k =>
          have hk1 : k < us.length := by simpa using h1
          have hk2 : k < rs2.length := by simpa using h2
          simpa using hpt k hk1 hk2

/-- A successful partition is exactly the status-code split of the
response list, both halves in response order. -/
lemma partitionResponses_ok {α : Type} (logger : Bool) :
    ∀ (rs : List (Response α)) s f,
      partitionResponses logger rs = .ok (s, f) →
      s = (rs.filter (fun r => r.status_code == 200)).map Response.body ∧
      f = rs.filter (fun r => !(r.status_code == 200)) := by
  intro rs
  induction rs with
  | nil =>
    intro s f h
    simp only [partitionResponses] at h
    cases h
    simp
  | cons r rest ih =>
    intro s f h
    cases h200 : (r.status_code == 200) with
    | true =>
      cases hrec : partitionResponses logger rest with
      | error e => simp [partitionResponses, h200, hrec] at h
      | ok p =>
        simp only [partitionResponses, h200, if_true, hrec] at h
        cases h
        obtain ⟨h1, h2⟩ := ih p.1 p.2 (by rw [hrec])
        constructor
        · simp [List.filter_cons, h200, h1]
        · simp [List.filter_cons, h200, h2]
    | false =>
      cases logger with
      | false => simp [partitionResponses, h200] at h
      | true =>
        cases hrec : partitionResponses true rest with
        | error e => simp [partitionResponses, h200, hrec] at h
        | ok p =>
          simp only [partitionResponses, h200, hrec] at h
          cases h
          obtain ⟨h1, h2⟩ := ih p.1 p.2 (by rw [hrec])
          constructor
          · simp [List.filter_cons, h200, h1]
          · simp [List.filter_cons, h200, h2]

/-- Claim C9: when `fetch_urls` returns, its succeeded sequence is the
bodies of the 200 responses in input order, and its failed sequence is
the non-200 responses in input order — the gathered response list is
positionally aligned with the input URLs, and the partition keeps that
relative order. -/
theorem fetch_urls_preserves_order {α : Type}
    (net : String → Option (Response α)) (urls : List String) (logger : Bool)
    (s : List α) (f rs : List (Response α))
    (hok : fetch_urls net urls logger = .ok (s, f))
    (hg : gatherGets net urls = .ok rs) :
    s = (rs.filter (fun r => r.status_code == 200)).map Response.body ∧
    f = rs.filter (fun r => !(r.status_code == 200)) ∧
    rs.length = urls.length ∧
    ∀ i (h1 : i < urls.length) (h2 : i < rs.length),
      net (urls.get ⟨i, h1⟩) = some (rs.get ⟨i, h2⟩) := by
  unfold fetch_urls at hok
  rw [hg] at hok
  obtain ⟨h1, h2⟩ := partitionResponses_ok logger rs s f hok
  obtain ⟨h3, h4⟩ := gatherGets_ok_spec net urls rs hg
  exact ⟨h1, h2, h3, h4⟩

/-- Witness for C9: the succeeded bodies of the three-URL scenario appear
in input order. -/
theorem fetch_urls_preserves_order_witness :
    (["a", "c"] : List String)
      = (([{ status_code := 200, body := "a" },
           { status_code := 404, body := "x" },
           { status_code := 200, body := "c" }] :
            List (Response String)).filter
          (fun r => r.status_code == 200)).map Response.body :=
  (fetch_urls_preserves_order netC9
    ["https://y/api/e/1/", "https://y/api/e/2/", "https://y/api/e/3/"] true
    ["a", "c"]
    [{ status_code := 404, body := "x" }]
    [{ status_code := 200, body := "a" },
     { status_code := 404, body := "x" },
     { status_code := 200, body := "c" }] rfl rfl).1

/-- Claim C6: a connection-level failure while resolving the thread's
emails-collection URL makes `update_emails` raise the typed
`RemoteURLFetchException` carrying exactly that collection URL. -/
theorem update_emails_connect_error_typed
    (net : String → Option (Response Body)) (db : DB) (thread : ThreadRow)
    (h : net thread.emails = none) :
    update_emails net db thread = .error (.remoteURLFetch thread.emails) := by
  simp [update_emails, fetch_urls, gatherGets, h]

/-- Witness for C6 on a network that refuses every connection. -/
theorem update_emails_connect_error_typed_witness :
    update_emails (fun _ => none) dbW threadRowW
      = .error (.remoteURLFetch threadRowW.emails) :=
  update_emails_connect_error_typed (fun _ => none) dbW threadRowW rfl

/-- If some URL of the batch fails at the connection level, the gather
itself errors with a `ConnectError` naming a failing URL of the batch. -/
lemma gatherGets_error_of_fail {α : Type}
    (net : String → Option (Response α)) :
    ∀ urls, (∃ u ∈ urls, net u = none) →
      ∃ u ∈ urls, net u = none ∧
        gatherGets net urls = .error (.connectError u) := by
  intro urls
  induction urls with
  | nil =>
    rintro ⟨u, hu, _⟩
    cases hu
  | cons v us ih =>
    rintro ⟨u, hu, hnu⟩
    cases hnv : net v with
    | none =>
      exact ⟨v, List.mem_cons_self v us, hnv, by simp [gatherGets, hnv]⟩
    | some r =>
      have hus : ∃ u ∈ us, net u = none := by
        rcases List.mem_cons.mp hu with h | h
        · subst h; rw [hnv] at hnu; cases hnu
        · exact ⟨u, h, hnu⟩
      obtain ⟨w, hw, hnw, hg⟩ := ih hus
      exact ⟨w, List.mem_cons_of_mem v hw, hnw, by simp [gatherGets, hnv, hg]⟩

/-- Claim C10: a connection failure during the batch fetch of the new
email bodies (after the collection URL itself resolved) propagates out of
`update_emails` as the raw `httpx.ConnectError` for a failing body URL —
not as the typed `RemoteURLFetchException` — and the call returns no new
Email rows. -/
theorem update_emails_raw_connect_error
    (net : String → Option (Response Body)) (db : DB) (thread : ThreadRow)
    (prs : List EmailJson)
    (hpage : net thread.emails
      = some { status_code := 200, body := Body.page prs })
    (hfail : ∃ u ∈ new_urls_of db thread.url (prs.map (fun e => e.url)),
      net u = none) :
    ∃ u ∈ new_urls_of db thread.url (prs.map (fun e => e.url)),
      net u = none ∧
        update_emails net db thread = .error (.connectError u) := by
  obtain ⟨u, hu, hnu, hg⟩ := gatherGets_error_of_fail net _ hfail
  refine ⟨u, hu, hnu, ?_⟩
  have hne : (new_urls_of db thread.url (prs.map (fun e => e.url))).isEmpty
      = false := by
    cases hl : new_urls_of db thread.url (prs.map (fun e => e.url)) with
    | nil => rw [hl] at hu; cases hu
    | cons a l => simp
  simp [update_emails, fetch_urls, gatherGets, hpage, partitionResponses,
    Body.results, hne, hg]

/-- Witness for C10: the body fetch for the one new URL is refused, and
the raw connect error for that URL escapes. -/
theorem update_emails_raw_connect_error_witness :
    ∃ u ∈ new_urls_of dbW threadRowW.url
        ([emailJson1, emailJson2].map (fun e => e.url)),
      netW2 u = none ∧
        update_emails netW2 dbW threadRowW = .error (.connectError u) :=
  update_emails_raw_connect_error netW2 dbW threadRowW
    [emailJson1, emailJson2] rfl
    ⟨"https://x/api/e/2/", by decide, rfl⟩

/-- A URL is in `new_urls` iff it is listed by the page and differs from
every stored Email.url for the thread. -/
lemma mem_new_urls_of (db : DB) (turl : String) (ru : List String)
    (u : String) :
    u ∈ new_urls_of db turl ru ↔
      u ∈ ru ∧ ∀ e ∈ db.emails, e.thread = turl → e.url ≠ u := by
  simp [new_urls_of, existing_email_urls, List.mem_filter]

/-- Two networks that agree on a batch gather identically on it. -/
lemma gatherGets_congr {α : Type} (net net2 : String → Option (Response α)) :
    ∀ urls, (∀ u ∈ urls, net2 u = net u) →
      gatherGets net2 urls = gatherGets net urls := by
  intro urls
  induction urls with
  | nil => intro _; rfl
  | cons v us ih =>
    intro h
    have hv : net2 v = net v := h v (List.mem_cons_self v us)
    have hrest := ih (fun u hu => h u (List.mem_cons_of_mem v hu))
    simp [gatherGets, hv, hrest]

/-- A batch whose URLs all answer 200 with a single-email body gathers
into one 200 email response per URL. -/
lemma gatherGets_emailOk (net : String → Option (Response Body)) :
    ∀ urls, (∀ u ∈ urls, isEmailOk (net u) = true) →
      ∃ rs, gatherGets net urls = .ok rs ∧ rs.length = urls.length ∧
        ∀ r ∈ rs, r.status_code = 200 ∧ ∃ j, r.body = Body.email j := by
  intro urls
  induction urls with
  | nil => intro _; exact ⟨[], rfl, rfl, by simp⟩
  | cons v us ih =>
    intro h
    have hv := h v (List.mem_cons_self v us)
    obtain ⟨rs, hg, hlen, hall⟩ :=
      ih (fun u hu => h u (List.mem_cons_of_mem v hu))
    cases hnv : net v with
    | none => rw [hnv] at hv; cases hv
    | some r =>
      rw [hnv] at hv
      simp only [isEmailOk, Bool.and_eq_true] at hv
      obtain ⟨hv1, hv2⟩ := hv
      have h200 : r.status_code = 200 := by simpa using hv1
      have hshape : ∃ j, r.body = Body.email j := by
        cases hb : r.body with
        | page l => rw [hb] at hv2; cases hv2
        | email j => exact ⟨j, rfl⟩
      refine ⟨r :: rs, by simp [gatherGets, hnv, hg], by simp [hlen], ?_⟩
      intro r2 hr2
      rcases List.mem_cons.mp hr2 with h2 | h2
      · subst h2; exact ⟨h200, hshape⟩
      · exact hall r2 h2

/-- Partitioning all-200 responses succeeds with no failures and yields
the bodies in order, regardless of the logger. -/
lemma partitionResponses_all200 {α : Type} (logger : Bool) :
    ∀ rs : List (Response α), (∀ r ∈ rs, r.status_code = 200) →
      partitionResponses logger rs = .ok (rs.map Response.body, []) := by
  intro rs
  induction rs with
  | nil => intro _; rfl
  | cons r rest ih =>
    intro h
    have h200 : (r.status_code == 200) = true := by
      simp [h r (List.mem_cons_self r rest)]
    have hrec := ih (fun x hx => h x (List.mem_cons_of_mem r hx))
    simp [partitionResponses, h200, hrec]

/-- Creating a batch of single-email bodies succeeds and yields one
`(row, created)` pair per body. -/
lemma createAll_ok :
    ∀ (bodies : List Body) (db : DB),
      (∀ b ∈ bodies, ∃ j, b = Body.email j) →
      ∃ pairs db2, createAll db bodies = .ok (pairs, db2) ∧
        pairs.length = bodies.length := by
  intro bodies
  induction bodies with
  | nil => intro db _; exact ⟨[], db, rfl, rfl⟩
  | cons b rest ih =>
    intro db h
    obtain ⟨j, hj⟩ := h b (List.mem_cons_self b rest)
    subst hj
    obtain ⟨pairs, db2, hca, hlen⟩ :=
      ih (EmailManager_create db j).2
        (fun x hx => h x (List.mem_cons_of_mem _ hx))
    exact ⟨(EmailManager_create db j).1 :: pairs, db2,
      by simp [createAll, hca], by simp [hlen]⟩

/-- Once the collection page has resolved, `update_emails` reduces to the
dedup test followed by the body-batch fetch on exactly `new_urls_of`. -/
lemma update_emails_eval
    (net : String → Option (Response Body)) (db : DB) (thread : ThreadRow)
    (prs : List EmailJson)
    (hpage : net thread.emails
      = some { status_code := 200, body := Body.page prs }) :
    update_emails net db thread =
      (if (new_urls_of db thread.url (prs.map (fun e => e.url))).isEmpty
       then .ok ([], db)
       else
        match fetch_urls net
            (new_urls_of db thread.url (prs.map (fun e => e.url))) false with
        | .error e => .error e
        | .ok (replies2, _) =>
          match createAll db replies2 with
          | .error e => .error e
          | .ok p => .ok (p.1.map (fun r => r.1), p.2)) := by
  have hfirst : fetch_urls net [thread.emails] true
      = .ok ([Body.page prs], []) := by
    simp [fetch_urls, gatherGets, hpage, partitionResponses]
  simp [update_emails, hfirst, Body.results]

/-- Claim C1: `update_emails` body-fetches only the listed URLs not
already stored for the thread: `new_urls_of` is exactly the listed URLs
differing from every stored `Email.url` of the thread; the result is
unchanged under any modification of the network away from the collection
URL and those new URLs (a stored URL is never re-fetched); when every new
URL answers 200 with an email body the call returns exactly one Email
object per new URL; and when every listed URL is already stored it
returns the empty list with the store untouched. -/
theorem update_emails_dedup
    (net : String → Option (Response Body)) (db : DB) (thread : ThreadRow)
    (prs : List EmailJson)
    (hpage : net thread.emails
      = some { status_code := 200, body := Body.page prs }) :
    (∀ u, u ∈ new_urls_of db thread.url (prs.map (fun e => e.url)) ↔
      (u ∈ prs.map (fun e => e.url) ∧
        ∀ e ∈ db.emails, e.thread = thread.url → e.url ≠ u)) ∧
    (∀ net2 : String → Option (Response Body),
      net2 thread.emails = net thread.emails →
      (∀ u ∈ new_urls_of db thread.url (prs.map (fun e => e.url)),
        net2 u = net u) →
      update_emails net2 db thread = update_emails net db thread) ∧
    ((∀ u ∈ new_urls_of db thread.url (prs.map (fun e => e.url)),
        isEmailOk (net u) = true) →
      ∃ rows db2, update_emails net db thread = .ok (rows, db2) ∧
        rows.length
          = (new_urls_of db thread.url (prs.map (fun e => e.url))).length) ∧
    ((∀ u ∈ prs.map (fun e => e.url),
        ∃ e2 ∈ db.emails, e2.thread = thread.url ∧ e2.url = u) →
      update_emails net db thread = .ok ([], db)) := by
  refine ⟨fun u => mem_new_urls_of db thread.url _ u, ?_, ?_, ?_⟩
  · intro net2 ha hb
    have hpage2 : net2 thread.emails
        = some { status_code := 200, body := Body.page prs } := by
      rw [ha, hpage]
    rw [update_emails_eval net db thread prs hpage,
        update_emails_eval net2 db thread prs hpage2]
    have hsecond : fetch_urls net2
        (new_urls_of db thread.url (prs.map (fun e => e.url))) false
        = fetch_urls net
            (new_urls_of db thread.url (prs.map (fun e => e.url))) false := by
      unfold fetch_urls
      rw [gatherGets_congr net net2 _ hb]
    rw [hsecond]
  · intro hok
    rw [update_emails_eval net db thread prs hpage]
    cases hemp : (new_urls_of db thread.url
        (prs.map (fun e => e.url))).isEmpty with
    | true =>
      refine ⟨[], db, by simp, ?_⟩
      rw [List.isEmpty_iff.mp hemp]
      rfl
    | false =>
      obtain ⟨rs, hg, hlen, hall⟩ := gatherGets_emailOk net _ hok
      have hpart := partitionResponses_all200 false rs
        (fun r hr => (hall r hr).1)
      have hfetch : fetch_urls net
          (new_urls_of db thread.url (prs.map (fun e => e.url))) false
          = .ok (rs.map Response.body, []) := by
        simp [fetch_urls, hg, hpart]
      have hbodies : ∀ b ∈ rs.map Response.body, ∃ j, b = Body.email j := by
        intro b hb
        obtain ⟨r, hr, hrb⟩ := List.mem_map.mp hb
        obtain ⟨j, hj⟩ := (hall r hr).2
        exact ⟨j, by rw [← hrb, hj]⟩
      obtain ⟨pairs, db2, hca, hplen⟩ :=
        createAll_ok (rs.map Response.body) db hbodies
      refine ⟨pairs.map (fun r => r.1), db2, ?_, ?_⟩
      · simp [hemp, hfetch, hca]
      · simp [hplen, hlen]
  · intro hall
    have hnil : new_urls_of db thread.url (prs.map (fun e => e.url)) = [] := by
      rw [new_urls_of, List.filter_eq_nil_iff]
      intro u hu
      obtain ⟨e2, he2, ht2, hu2⟩ := hall u hu
      simp [existing_email_urls]
      exact ⟨e2, he2, ht2, hu2⟩
    rw [update_emails_eval net db thread prs hpage, hnil]
    rfl

/-- Witness for C1: with one of the two listed URLs already stored, the
call succeeds and returns exactly one Email object for the one new
URL. -/
theorem update_emails_dedup_witness :
    ∃ rows db2, update_emails netW dbW threadRowW = .ok (rows, db2) ∧
      rows.length = (new_urls_of dbW threadRowW.url
        ([emailJson1, emailJson2].map (fun e => e.url))).length :=
  (update_emails_dedup netW dbW threadRowW [emailJson1, emailJson2]
    (by decide)).2.2.1 (by decide)

/-- In a list with at most one element satisfying `p`, two members that
both satisfy `p` are equal. -/
lemma countP_le_one_unique {α : Type} (p : α → Bool) :
    ∀ l : List α, l.countP p ≤ 1 →
      ∀ a ∈ l, ∀ b ∈ l, p a = true → p b = true → a = b := by
  intro l
  induction l with
  | nil => intro _ a ha; cases ha
  | cons x t ih =>
    intro hc a ha b hb hpa hpb
    rw [List.countP_cons] at hc
    cases hpx : p x with
    | true =>
      rw [hpx] at hc
      rw [if_pos rfl] at hc
      have ht : t.countP p = 0 := by omega
      have hnot := List.countP_eq_zero.mp ht
      have hax : a = x := by
        rcases List.mem_cons.mp ha with h | h
        · exact h
        · exact absurd hpa (hnot a h)
      have hbx : b = x := by
        rcases List.mem_cons.mp hb with h | h
        · exact h
        · exact absurd hpb (hnot b h)
      rw [hax, hbx]
    | false =>
      have ha2 : a ∈ t := by
        rcases List.mem_cons.mp ha with rfl | h
        · rw [hpa] at hpx; cases hpx
        · exact h
      have hb2 : b ∈ t := by
        rcases List.mem_cons.mp hb with rfl | h
        · rw [hpb] at hpx; cases hpx
        · exact h
      rw [hpx] at hc
      rw [if_neg (by simp)] at hc
      exact ih (by omega) a ha2 b hb2 hpa hpb

/-- One task step either leaves the store unchanged, appends exactly one
sender row (built from its own sender dict, under the not-found guard),
or appends exactly one email row built from its own body. -/
lemma taskStep_db_cases (j : EmailJson) (db : DB) (pc : TaskPC) :
    (taskStep j db pc).1 = db ∨
    (findSender db j.sender.mailman_id = none ∧
      (taskStep j db pc).1.senders
        = db.senders ++ [mkSenderRow db.nextSenderId j.sender] ∧
      (taskStep j db pc).1.emails = db.emails) ∨
    (∃ s : SenderRow,
      (taskStep j db pc).1.senders = db.senders ∧
      (taskStep j db pc).1.emails
        = db.emails ++ [mkEmailRow db.nextEmailId j s.id]) := by
  cases pc with
  | start => exact Or.inl rfl
  | gotSender found =>
    cases found with
    | some r => exact Or.inl rfl
    | none =>
      cases hf : findSender db j.sender.mailman_id with
      | some r => exact Or.inl (by simp [taskStep, hf])
      | none =>
        refine Or.inr (Or.inl ⟨rfl, ?_, ?_⟩)
        · simp [taskStep, hf, insertSender]
        · simp [taskStep, hf, insertSender]
  | integrityFailed =>
    cases hf : findSender db j.sender.mailman_id with
    | some r => exact Or.inl (by simp [taskStep, hf])
    | none => exact Or.inl (by simp [taskStep, hf])
  | resolved s => exact Or.inl rfl
  | emailGot s found =>
    cases found with
    | some e => exact Or.inl rfl
    | none =>
      refine Or.inr (Or.inr ⟨s, ?_, ?_⟩)
      · simp [taskStep, insertEmail]
      · simp [taskStep, insertEmail]
  | finished s e => exact Or.inl rfl
  | errored => exact Or.inl rfl

/-- `senderOk` only mentions sender-row membership, so it survives any
extension of the sender table. -/
lemma senderOk_mono {db db2 : DB} {mid : String} {pc : TaskPC}
    (hs : ∃ l, db2.senders = db.senders ++ l) :
    senderOk db mid pc → senderOk db2 mid pc := by
  obtain ⟨l, hl⟩ := hs
  cases pc with
  | start => intro h; trivial
  | gotSender found =>
    cases found with
    | none => intro h; trivial
    | some r =>
      rintro ⟨h1, h2⟩
      exact ⟨by rw [hl]; exact List.mem_append_left _ h1, h2⟩
  | integrityFailed =>
    rintro ⟨r, h1, h2⟩
    exact ⟨r, by rw [hl]; exact List.mem_append_left _ h1, h2⟩
  | resolved s =>
    rintro ⟨h1, h2⟩
    exact ⟨by rw [hl]; exact List.mem_append_left _ h1, h2⟩
  | emailGot s found =>
    rintro ⟨h1, h2⟩
    exact ⟨by rw [hl]; exact List.mem_append_left _ h1, h2⟩
  | finished s e =>
    rintro ⟨h1, h2⟩
    exact ⟨by rw [hl]; exact List.mem_append_left _ h1, h2⟩
  | errored => intro h; exact h

/-- `emailOk` survives an email-table extension by rows of a different
hash. -/
lemma emailOk_mono {db db2 : DB} {h : String} {pc : TaskPC}
    (he : db2.emails = db.emails ∨
      ∃ row, row.message_id_hash ≠ h ∧ db2.emails = db.emails ++ [row]) :
    emailOk db h pc → emailOk db2 h pc := by
  have hfresh : (∀ e ∈ db.emails, e.message_id_hash ≠ h) →
      ∀ e ∈ db2.emails, e.message_id_hash ≠ h := by
    intro hbase e hee
    rcases he with h1 | ⟨row, hr, h2⟩
    · exact hbase e (h1 ▸ hee)
    · rw [h2] at hee
      rcases List.mem_append.mp hee with hh | hh
      · exact hbase e hh
      · obtain rfl := List.mem_singleton.mp hh
        exact hr
  have hsub : ∀ e ∈ db.emails, e ∈ db2.emails := by
    intro e hee
    rcases he with h1 | ⟨row, hr, h2⟩
    · rw [h1]; exact hee
    · rw [h2]; exact List.mem_append_left _ hee
  cases pc with
  | start => exact hfresh
  | gotSender found => exact hfresh
  | integrityFailed => exact hfresh
  | resolved s => exact hfresh
  | emailGot s found =>
    rintro ⟨h1, h2⟩
    exact ⟨h1, hfresh h2⟩
  | finished s e =>
    rintro ⟨h1, h2⟩
    exact ⟨hsub e h1, h2⟩
  | errored => intro h; trivial

/-- A step of one task preserves the other task's invariants (the other
task's hash differs from the stepping task's). -/
lemma taskStep_other (j : EmailJson) (mid h : String) (db : DB)
    (pc pcO : TaskPC) (hjh : j.message_id_hash ≠ h)
    (hso : senderOk db mid pcO) (heo : emailOk db h pcO) :
    senderOk (taskStep j db pc).1 mid pcO ∧
    emailOk (taskStep j db pc).1 h pcO := by
  rcases taskStep_db_cases j db pc with hdb | ⟨hf, hs, he⟩ | ⟨s, hs, he⟩
  · rw [hdb]; exact ⟨hso, heo⟩
  · exact ⟨senderOk_mono ⟨_, hs⟩ hso, emailOk_mono (Or.inl he) heo⟩
  · refine ⟨senderOk_mono ⟨[], by simp [hs]⟩ hso,
      emailOk_mono (Or.inr ⟨_, ?_, he⟩) heo⟩
    simpa [mkEmailRow] using hjh

/-- A step of a task preserves the sender-count bound and the stepping
task's own invariants. -/
lemma taskStep_own (j : EmailJson) (mid h : String) (db : DB) (pc : TaskPC)
    (hjm : j.sender.mailman_id = mid) (hjh : j.message_id_hash = h)
    (hcnt : db.senders.countP (fun r => r.mailman_id == mid) ≤ 1)
    (hso : senderOk db mid pc) (heo : emailOk db h pc) :
    (taskStep j db pc).1.senders.countP (fun r => r.mailman_id == mid) ≤ 1 ∧
    senderOk (taskStep j db pc).1 mid (taskStep j db pc).2 ∧
    emailOk (taskStep j db pc).1 h (taskStep j db pc).2 := by
  cases pc with
  | start =>
    refine ⟨hcnt, ?_, heo⟩
    cases hf : findSender db j.sender.mailman_id with
    | none =>
      simp only [taskStep]
      rw [hf]
      trivial
    | some r =>
      have hmem := List.mem_of_find?_eq_some hf
      have hrm : r.mailman_id = mid := by
        have hp := List.find?_some hf
        rw [← hjm]
        simpa using hp
      simp only [taskStep]
      rw [hf]
      exact ⟨hmem, hrm⟩
  | gotSender found =>
    cases found with
    | some r => exact ⟨hcnt, hso, heo⟩
    | none =>
      cases hf : findSender db j.sender.mailman_id with
      | some r =>
        refine ⟨?_, ?_, ?_⟩
        · simp only [taskStep]
          rw [hf]
          exact hcnt
        · have hmem := List.mem_of_find?_eq_some hf
          have hrm : r.mailman_id = mid := by
            have hp := List.find?_some hf
            rw [← hjm]
            simpa using hp
          simp only [taskStep]
          rw [hf]
          exact ⟨r, hmem, hrm⟩
        · simp only [taskStep]
          rw [hf]
          exact heo
      | none =>
        have hz : db.senders.countP (fun r => r.mailman_id == mid) = 0 := by
          rw [List.countP_eq_zero]
          intro r hr
          have hn := List.find?_eq_none.mp hf r hr
          simpa [hjm] using hn
        refine ⟨?_, ?_, ?_⟩
        · simp only [taskStep]
          rw [hf]
          simp [insertSender, List.countP_append, hz, mkSenderRow,
            List.countP_cons, hjm]
        · simp only [taskStep]
          rw [hf]
          refine ⟨?_, by simp [mkSenderRow, hjm]⟩
          simp [insertSender]
        · simp only [taskStep]
          rw [hf]
          exact heo
  | integrityFailed =>
    obtain ⟨r, hrmem, hrm⟩ := hso
    cases hf : findSender db j.sender.mailman_id with
    | none =>
      exfalso
      have hn := List.find?_eq_none.mp hf r hrmem
      apply hn
      simp [hrm, hjm]
    | some r2 =>
      refine ⟨?_, ?_, ?_⟩
      · simp only [taskStep]
        rw [hf]
        exact hcnt
      · have hmem := List.mem_of_find?_eq_some hf
        have hrm2 : r2.mailman_id = mid := by
          have hp := List.find?_some hf
          rw [← hjm]
          simpa using hp
        simp only [taskStep]
        rw [hf]
        exact ⟨hmem, hrm2⟩
      · simp only [taskStep]
        rw [hf]
        exact heo
  | resolved s =>
    obtain ⟨hsm, hsmid⟩ := hso
    have hfe : findEmail db j.message_id_hash = none := by
      apply List.find?_eq_none.mpr
      intro e he
      have hne := heo e he
      simpa [hjh] using hne
    refine ⟨hcnt, ?_, ?_⟩
    · simp only [taskStep]
      exact ⟨hsm, hsmid⟩
    · simp only [taskStep]
      rw [hfe]
      exact ⟨rfl, heo⟩
  | emailGot s found =>
    cases found with
    | some e =>
      obtain ⟨hcontra, _⟩ := heo
      cases hcontra
    | none =>
      obtain ⟨_, hfree⟩ := heo
      obtain ⟨hsm, hsmid⟩ := hso
      refine ⟨?_, ?_, ?_⟩
      · simpa [taskStep, insertEmail] using hcnt
      · exact ⟨hsm, hsmid⟩
      · refine ⟨?_, rfl⟩
        simp [taskStep, insertEmail]
  | finished s e => exact ⟨hcnt, hso, heo⟩
  | errored => exact hso.elim

/-- A scheduler step preserves the joint race invariant. -/
lemma inv_step (j1 j2 : EmailJson) (mid : String)
    (hm1 : j1.sender.mailman_id = mid) (hm2 : j2.sender.mailman_id = mid)
    (hne : j1.message_id_hash ≠ j2.message_id_hash)
    (st : RaceState) (c : Bool)
    (hinv : RaceInv mid j1.message_id_hash j2.message_id_hash st) :
    RaceInv mid j1.message_id_hash j2.message_id_hash (raceStep j1 j2 st c) := by
  obtain ⟨hcnt, hsA, hsB, heA, heB⟩ := hinv
  cases c with
  | true =>
    obtain ⟨hc2, hs2, he2⟩ :=
      taskStep_own j1 mid j1.message_id_hash st.db st.pcA hm1 rfl hcnt hsA heA
    obtain ⟨hs3, he3⟩ :=
      taskStep_other j1 mid j2.message_id_hash st.db st.pcA st.pcB hne hsB heB
    exact ⟨hc2, hs2, hs3, he2, he3⟩
  | false =>
    obtain ⟨hc2, hs2, he2⟩ :=
      taskStep_own j2 mid j2.message_id_hash st.db st.pcB hm2 rfl hcnt hsB heB
    obtain ⟨hs3, he3⟩ :=
      taskStep_other j2 mid j1.message_id_hash st.db st.pcB st.pcA
        (Ne.symm hne) hsA heA
    exact ⟨hc2, hs3, hs2, he3, he2⟩

/-- The joint race invariant holds along any schedule. -/
lemma inv_run (j1 j2 : EmailJson) (mid : String)
    (hm1 : j1.sender.mailman_id = mid) (hm2 : j2.sender.mailman_id = mid)
    (hne : j1.message_id_hash ≠ j2.message_id_hash) :
    ∀ (cs : List Bool) (st : RaceState),
      RaceInv mid j1.message_id_hash j2.message_id_hash st →
      RaceInv mid j1.message_id_hash j2.message_id_hash (raceRun j1 j2 st cs) := by
  intro cs
  induction cs with
  | nil => intro st h; exact h
  | cons c cs ih =>
    intro st h
    exact ih _ (inv_step j1 j2 mid hm1 hm2 hne st c h)

/-- A task is at most five steps deep. -/
lemma pcDepth_le_five (pc : TaskPC) : pcDepth pc ≤ 5 := by
  cases pc <;> simp [pcDepth]

/-- A non-terminal task strictly advances on its own step. -/
lemma taskStep_progress (j : EmailJson) (db : DB) (pc : TaskPC)
    (h : pcDepth pc < 5) : pcDepth pc < pcDepth (taskStep j db pc).2 := by
  cases pc with
  | start => simp [taskStep, pcDepth]
  | gotSender found =>
    cases found with
    | some r => simp [taskStep, pcDepth]
    | none =>
      cases hf : findSender db j.sender.mailman_id with
      | some r => simp [taskStep, hf, pcDepth]
      | none => simp [taskStep, hf, pcDepth]
  | integrityFailed =>
    cases hf : findSender db j.sender.mailman_id with
    | some r => simp [taskStep, hf, pcDepth]
    | none => simp [taskStep, hf, pcDepth]
  | resolved s => simp [taskStep, pcDepth]
  | emailGot s found => cases found <;> simp [taskStep, pcDepth]
  | finished s e => simp [pcDepth] at h
  | errored => simp [pcDepth] at h

/-- A terminal task never moves again. -/
lemma taskStep_fix (j : EmailJson) (db : DB) (pc : TaskPC)
    (h : pcDepth pc = 5) : taskStep j db pc = (db, pc) := by
  cases pc <;> simp_all [pcDepth, taskStep]

/-- With at least five A-steps in the schedule, task A reaches a terminal
state. -/
lemma raceRun_pcA_depth (j1 j2 : EmailJson) :
    ∀ (cs : List Bool) (st : RaceState),
      5 ≤ pcDepth st.pcA + cs.count true →
      pcDepth (raceRun j1 j2 st cs).pcA = 5 := by
  intro cs
  induction cs with
  | nil =>
    intro st h
    simp only [List.count_nil] at h
    have := pcDepth_le_five st.pcA
    show pcDepth st.pcA = 5
    omega
  | cons c cs ih =>
    intro st h
    cases c with
    | false =>
      apply ih
      have hA : (raceStep j1 j2 st false).pcA = st.pcA := rfl
      rw [hA]
      have hco : (false :: cs).count true = cs.count true := by simp
      rw [hco] at h
      omega
    | true =>
      by_cases h5 : pcDepth st.pcA = 5
      · apply ih
        have hfix := taskStep_fix j1 st.db st.pcA h5
        have hA : (raceStep j1 j2 st true).pcA = st.pcA := by
          simp [raceStep, hfix]
        rw [hA, h5]
        omega
      · have hlt : pcDepth st.pcA < 5 :=
          Nat.lt_of_le_of_ne (pcDepth_le_five _) h5
        have hprog := taskStep_progress j1 st.db st.pcA hlt
        apply ih
        have hA : (raceStep j1 j2 st true).pcA
            = (taskStep j1 st.db st.pcA).2 := rfl
        have hco : (true :: cs).count true = cs.count true + 1 := by simp
        rw [hco] at h
        rw [hA]
        omega

/-- With at least five B-steps in the schedule, task B reaches a terminal
state. -/
lemma raceRun_pcB_depth (j1 j2 : EmailJson) :
    ∀ (cs : List Bool) (st : RaceState),
      5 ≤ pcDepth st.pcB + cs.count false →
      pcDepth (raceRun j1 j2 st cs).pcB = 5 := by
  intro cs
  induction cs with
  | nil =>
    intro st h
    simp only [List.count_nil] at h
    have := pcDepth_le_five st.pcB
    show pcDepth st.pcB = 5
    omega
  | cons c cs ih =>
    intro st h
    cases c with
    | true =>
      apply ih
      have hB : (raceStep j1 j2 st true).pcB = st.pcB := rfl
      rw [hB]
      have hco : (true :: cs).count false = cs.count false := by simp
      rw [hco] at h
      omega
    | false =>
      by_cases h5 : pcDepth st.pcB = 5
      · apply ih
        have hfix := taskStep_fix j2 st.db st.pcB h5
        have hB : (raceStep j1 j2 st false).pcB = st.pcB := by
          simp [raceStep, hfix]
        rw [hB, h5]
        omega
      · have hlt : pcDepth st.pcB < 5 :=
          Nat.lt_of_le_of_ne (pcDepth_le_five _) h5
        have hprog := taskStep_progress j2 st.db st.pcB hlt
        apply ih
        have hB : (raceStep j1 j2 st false).pcB
            = (taskStep j2 st.db st.pcB).2 := rfl
        have hco : (false :: cs).count false = cs.count false + 1 := by simp
        rw [hco] at h
        rw [hB]
        omega

/-- Depth five means finished or errored. -/
lemma pcDepth_five_cases (pc : TaskPC) (h : pcDepth pc = 5) :
    (∃ s e, pc = .finished s e) ∨ pc = .errored := by
  cases pc with
  | finished s e => exact Or.inl ⟨s, e, rfl⟩
  | errored => exact Or.inr rfl
  | start => simp [pcDepth] at h
  | gotSender found => simp [pcDepth] at h
  | integrityFailed => simp [pcDepth] at h
  | resolved s => simp [pcDepth] at h
  | emailGot s found => simp [pcDepth] at h

/-- Claim C4: for every interleaving that gives each of the two concurrent
`EmailManager.create` tasks enough turns, when both tasks' bodies name
the same not-yet-stored sender they both run to completion — the loser's
`IntegrityError` is recovered by re-fetching the winner's row, never
propagated — exactly one Sender row with that mailman_id exists
afterwards, both tasks resolved that same row, and both created Email
rows reference it. -/
theorem sender_race_recovery
    (j1 j2 : EmailJson) (db0 : DB) (cs : List Bool) (mid : String)
    (hm1 : j1.sender.mailman_id = mid) (hm2 : j2.sender.mailman_id = mid)
    (hne : j1.message_id_hash ≠ j2.message_id_hash)
    (hs0 : findSender db0 mid = none)
    (hf1 : ∀ e ∈ db0.emails, e.message_id_hash ≠ j1.message_id_hash)
    (hf2 : ∀ e ∈ db0.emails, e.message_id_hash ≠ j2.message_id_hash)
    (hct : 5 ≤ cs.count true) (hcf : 5 ≤ cs.count false) :
    ∃ s e1 e2,
      (raceRun j1 j2 { db := db0, pcA := .start, pcB := .start } cs).pcA
        = .finished s e1 ∧
      (raceRun j1 j2 { db := db0, pcA := .start, pcB := .start } cs).pcB
        = .finished s e2 ∧
      (raceRun j1 j2 { db := db0, pcA := .start, pcB := .start }
          cs).db.senders.countP (fun r => r.mailman_id == mid) = 1 ∧
      s ∈ (raceRun j1 j2 { db := db0, pcA := .start, pcB := .start }
          cs).db.senders ∧
      s.mailman_id = mid ∧
      e1 ∈ (raceRun j1 j2 { db := db0, pcA := .start, pcB := .start }
          cs).db.emails ∧
      e2 ∈ (raceRun j1 j2 { db := db0, pcA := .start, pcB := .start }
          cs).db.emails ∧
      e1.sender = s.id ∧ e2.sender = s.id := by
  have hinv0 : RaceInv mid j1.message_id_hash j2.message_id_hash
      { db := db0, pcA := .start, pcB := .start } := by
    refine ⟨?_, trivial, trivial, hf1, hf2⟩
    have hz : db0.senders.countP (fun r => r.mailman_id == mid) = 0 := by
      rw [List.countP_eq_zero]
      intro r hr
      exact List.find?_eq_none.mp hs0 r hr
    show db0.senders.countP (fun r => r.mailman_id == mid) ≤ 1
    omega
  have hinvF := inv_run j1 j2 mid hm1 hm2 hne cs
    { db := db0, pcA := .start, pcB := .start } hinv0
  obtain ⟨hcnt, hsA, hsB, heA, heB⟩ := hinvF
  have hdA := raceRun_pcA_depth j1 j2 cs
    { db := db0, pcA := .start, pcB := .start } (by simpa [pcDepth] using hct)
  have hdB := raceRun_pcB_depth j1 j2 cs
    { db := db0, pcA := .start, pcB := .start } (by simpa [pcDepth] using hcf)
  rcases pcDepth_five_cases _ hdA with ⟨s1, e1, hA⟩ | hA
  case inr => rw [hA] at hsA; exact hsA.elim
  rcases pcDepth_five_cases _ hdB with ⟨s2, e2, hB⟩ | hB
  case inr => rw [hB] at hsB; exact hsB.elim
  rw [hA] at hsA heA
  rw [hB] at hsB heB
  obtain ⟨hs1mem, hs1mid⟩ := hsA
  obtain ⟨hs2mem, hs2mid⟩ := hsB
  obtain ⟨he1mem, he1s⟩ := heA
  obtain ⟨he2mem, he2s⟩ := heB
  have hs12 : s1 = s2 :=
    countP_le_one_unique _ _ hcnt s1 hs1mem s2 hs2mem
      (by simp [hs1mid]) (by simp [hs2mid])
  have hpos : 0 < (raceRun j1 j2 { db := db0, pcA := .start, pcB := .start }
      cs).db.senders.countP (fun r => r.mailman_id == mid) :=
    List.countP_pos_iff.mpr ⟨s1, hs1mem, by simp [hs1mid]⟩
  refine ⟨s1, e1, e2, hA, ?_, by omega, hs1mem, hs1mid, he1mem, he2mem,
    he1s, ?_⟩
  · rw [hB, hs12]
  · rw [he2s, hs12]

/-- Witness for C4: the two sample bodies share sender SND1; from the
empty store under the alternating ten-step schedule, both tasks finish on
the single stored Sender row and both stored Email rows reference it. -/
theorem sender_race_recovery_witness :
    ∃ s e1 e2,
      (raceRun emailJson1 emailJson2
        { db := DB.empty, pcA := .start, pcB := .start } csW).pcA
        = .finished s e1 ∧
      (raceRun emailJson1 emailJson2
        { db := DB.empty, pcA := .start, pcB := .start } csW).pcB
        = .finished s e2 ∧
      (raceRun emailJson1 emailJson2
        { db := DB.empty, pcA := .start, pcB := .start }
          csW).db.senders.countP (fun r => r.mailman_id == "SND1") = 1 ∧
      s ∈ (raceRun emailJson1 emailJson2
        { db := DB.empty, pcA := .start, pcB := .start } csW).db.senders ∧
      s.mailman_id = "SND1" ∧
      e1 ∈ (raceRun emailJson1 emailJson2
        { db := DB.empty, pcA := .start, pcB := .start } csW).db.emails ∧
      e2 ∈ (raceRun emailJson1 emailJson2
        { db := DB.empty, pcA := .start, pcB := .start } csW).db.emails ∧
      e1.sender = s.id ∧ e2.sender = s.id :=
  sender_race_recovery emailJson1 emailJson2 DB.empty csW "SND1" rfl rfl
    (by decide) rfl (by decide) (by decide) (by decide) (by decide)
